import Mathlib

/-!
Verification of the M2-Bootloader flash / firmware-update core.

Shallow embedding of `bootloader/src/flash.rs`, `bootloader/src/verify.rs`
and `bootloader/src/updater.rs`.  Bytes are modelled as `Nat` (a `u8` value
is `< 256`, stated as a hypothesis where it matters), flash storage as a
`List Nat`, and `&mut self` methods as state-passing functions returning
the new device state together with an `Except FlashError` result, so that
a method that mutates the device before failing (as `program_page` does)
keeps its partial mutation.
-/

set_option maxHeartbeats 1000000

deriving instance DecidableEq for Except

/-- Byte-by-byte store loop: `writeBytes st a d` stores the bytes of `d`
into `st` at consecutive positions `a, a+1, ...` (out-of-range positions
are silently dropped by `List.set`, which cannot happen at the call sites
because every caller bounds-checks first). -/
def writeBytes : List Nat → Nat → List Nat → List Nat
  | st, _, [] => st
  | st, a, b :: bs => writeBytes (st.set a b) (a + 1) bs

/-- Contiguous slice `st[a .. a+n)`, the result of a flash `read`. -/
def sliceList (st : List Nat) (a n : Nat) : List Nat :=
  (st.drop a).take n

/-- Device-level error taxonomy of `flash.rs` (`FlashError`). -/
inductive FlashError where
  | outOfBounds
  | alignmentError
  | deviceError (reason : String)
  | verificationFailed (addr : Nat) (expected : Nat) (found : Nat)
deriving DecidableEq

/-- In-memory mock flash device (`MockFlash` in `flash.rs`): backing
byte array plus geometry. -/
structure MockFlash where
  storage : List Nat
  sectorSize : Nat
  pageSize : Nat
deriving DecidableEq

/-- `MockFlash::new`: all bytes initialised to the erased value `0xFF`. -/
def MockFlash.new (size sectorSize pageSize : Nat) : MockFlash :=
  { storage := List.replicate size 255, sectorSize := sectorSize, pageSize := pageSize }

/-- `MockFlash::fill`: overwrite every byte of the backing array with `v`. -/
def MockFlash.fill (f : MockFlash) (v : Nat) : MockFlash :=
  { f with storage := List.replicate f.storage.length v }

/-- `Flash::size` for the mock: length of the backing array. -/
def MockFlash.size (f : MockFlash) : Nat :=
  f.storage.length

/-- `MockFlash::read`: bounds-check `addr + len` against the storage
length, then return the slice.  (`checked_add` overflow of the Rust
`usize` addition would also report `OutOfBounds`; over `Nat` the sum is
exact, and an overflowing sum always exceeds the storage length, so the
single comparison is faithful.) -/
def MockFlash.read (f : MockFlash) (addr len : Nat) : Except FlashError (List Nat) :=
  if addr + len > f.storage.length then .error .outOfBounds
  else .ok (sliceList f.storage addr len)

/-- `MockFlash::erase_sector`: bounds/alignment checks, then set every
byte of the sector to `0xFF`.  In Rust, `addr % self.sector_size` with a
zero sector size panics; the panic is modelled as a device error (no
claim exercises that case). -/
def MockFlash.eraseSector (f : MockFlash) (addr : Nat) : MockFlash × Except FlashError Unit :=
  if addr ≥ f.storage.length then (f, .error .outOfBounds)
  else if f.sectorSize = 0 then (f, .error (.deviceError ("panic: remainder by zero")))
  else if addr % f.sectorSize ≠ 0 then (f, .error .alignmentError)
  else if addr + f.sectorSize > f.storage.length then (f, .error .outOfBounds)
  else ({ f with storage := writeBytes f.storage addr (List.replicate f.sectorSize 255) }, .ok ())

/-- Byte loop of `MockFlash::program_page`: at position `p` and each
following position, check that the new byte needs no 0→1 transition
(`b & dst == b`) and store `dst & b`; on a violation stop immediately,
keeping the bytes already stored. -/
def progBytes : List Nat → Nat → List Nat → List Nat × Except FlashError Unit
  | st, _, [] => (st, .ok ())
  | st, p, b :: bs =>
    let dst := st.getD p 0
    if b &&& dst ≠ b then (st, .error (.deviceError ("attempt to program 0->1")))
    else progBytes (st.set p (dst &&& b)) (p + 1) bs

/-- `MockFlash::program_page`: bounds and page-size checks, then the
byte loop. -/
def MockFlash.programPage (f : MockFlash) (addr : Nat) (data : List Nat) :
    MockFlash × Except FlashError Unit :=
  if addr ≥ f.storage.length then (f, .error .outOfBounds)
  else if data.length > f.pageSize then (f, .error .alignmentError)
  else if addr + data.length > f.storage.length then (f, .error .outOfBounds)
  else
    let r := progBytes f.storage addr data
    ({ f with storage := r.1 }, r.2)

/-- Comparison loop of the default `Flash::verify`: compare `expected`
against the read-back bytes, reporting the first mismatch with its
absolute address and both byte values. -/
def compareAt (base i : Nat) : List Nat → List Nat → Except FlashError Unit
  | [], _ => .ok ()
  | _ :: _, [] => .ok ()
  | a :: xs, b :: ys =>
    if a ≠ b then .error (.verificationFailed (base + i) a b)
    else compareAt base (i + 1) xs ys

/-- Default `Flash::verify` (std path): read `data.length` bytes back and
compare element-wise. -/
def MockFlash.verify (f : MockFlash) (addr : Nat) (data : List Nat) : Except FlashError Unit :=
  match f.read addr data.length with
  | .error e => .error e
  | .ok buf => compareAt addr 0 data buf

/-- Sector-erase loop of `Flash::write_region`
(`for s in start_sector..=end_sector`). -/
def eraseSectors (f : MockFlash) (s e : Nat) : MockFlash × Except FlashError Unit :=
  if s ≤ e then
    match f.eraseSector (s * f.sectorSize) with
    | (f', .error err) => (f', .error err)
    | (f', .ok _) => eraseSectors f' (s + 1) e
  else (f, .ok ())
termination_by e + 1 - s
decreasing_by omega

/-- Page programming loop of `Flash::write_region`: program then verify
page-sized slices in ascending order.  The `pageSize = 0` guard mirrors
the `invalid page size` check `write_region` performs before entering the
loop (it is required here for termination and is unreachable from
`writeRegion`, which never enters the loop with a zero page size). -/
def programLoop (f : MockFlash) (addr : Nat) (data : List Nat) (offset : Nat) :
    MockFlash × Except FlashError Unit :=
  if f.pageSize = 0 then (f, .error (.deviceError ("invalid page size")))
  else if h : offset < data.length then
    let writeLen := min (data.length - offset) f.pageSize
    let pageSlice := (data.drop offset).take writeLen
    match f.programPage (addr + offset) pageSlice with
    | (f', .error e) => (f', .error e)
    | (f', .ok _) =>
      match f'.verify (addr + offset) pageSlice with
      | .error e => (f', .error e)
      | .ok _ => programLoop f' addr data (offset + writeLen)
  else (f, .ok ())
termination_by data.length - offset
decreasing_by
  have hp : 0 < f.pageSize := Nat.pos_of_ne_zero (by assumption)
  omega

/-- Wrapping `usize` subtraction of 1, as computed by
`addr + data.len() - 1` in release-mode Rust: `0 - 1` wraps to
`2^64 - 1`; every genuine `usize` value `n ≥ 1` gives `n - 1`. -/
def usizeSub1 (n : Nat) : Nat :=
  if n = 0 then 2 ^ 64 - 1 else n - 1

/-- `Flash::write_region` (trait default): bounds check, erase the
covering sectors in ascending order, then program-and-verify page by
page. -/
def MockFlash.writeRegion (f : MockFlash) (addr : Nat) (data : List Nat) :
    MockFlash × Except FlashError Unit :=
  if addr + data.length > f.storage.length then (f, .error .outOfBounds)
  else if f.sectorSize = 0 then (f, .error (.deviceError ("invalid sector size")))
  else
    let startSector := addr / f.sectorSize
    let endSector := usizeSub1 (addr + data.length) / f.sectorSize
    match eraseSectors f startSector endSector with
    | (f', .error e) => (f', .error e)
    | (f', .ok _) =>
      if f'.pageSize = 0 then (f', .error (.deviceError ("invalid page size")))
      else programLoop f' addr data 0

/-- One step of the reflected CRC-32 bit loop: shift right, conditionally
xor the reversed polynomial `0xEDB88320`. -/
def crcStep (c : Nat) : Nat :=
  if c % 2 = 1 then (c / 2) ^^^ 0xEDB88320 else c / 2

/-- Fold one byte into the CRC state (xor into the low bits, then eight
bit steps). -/
def crcByte (c b : Nat) : Nat :=
  crcStep^[8] (c ^^^ b)

/-- Modelled from the spec: the `crc32fast::hash` function used by
`Flash::crc32` lives in an external crate whose source is not part of
this repository; the spec fixes it as the standard reflected CRC-32
(polynomial `0xEDB88320`, initial value and final xor `0xFFFFFFFF`). -/
def crc32Bytes (bs : List Nat) : Nat :=
  (bs.foldl crcByte 0xFFFFFFFF) ^^^ 0xFFFFFFFF

/-- `Flash::crc32` (trait default, std path): bounds check, read the
region, hash it. -/
def MockFlash.crc32 (f : MockFlash) (addr len : Nat) : Except FlashError Nat :=
  if addr + len > f.storage.length then .error .outOfBounds
  else
    match f.read addr len with
    | .error e => .error e
    | .ok buf => .ok (crc32Bytes buf)

/-- `verify.rs::verify_crc`: compute the region CRC and compare with the
expected value, returning the comparison as a `Bool`. -/
def verify_crc (f : MockFlash) (addr len : Nat) (expectedCrc : Nat) : Except FlashError Bool :=
  match f.crc32 addr len with
  | .error e => .error e
  | .ok c => .ok (c == expectedCrc)

/-- Window loop of `verify.rs::verify_bytes`: read up to 256 bytes at a
time; only when `stopOnMismatch` is set does a differing window return
`false`.  After the loop the source returns `Ok(true)` on both branches
of its final `if stop_on_mismatch`. -/
def verifyBytesLoop (f : MockFlash) (addr : Nat) (reference : List Nat) (stopOnMismatch : Bool)
    (offset : Nat) : Except FlashError Bool :=
  if h : offset < reference.length then
    let chunk := min 256 (reference.length - offset)
    match f.read (addr + offset) chunk with
    | .error e => .error e
    | .ok buf =>
      if stopOnMismatch ∧ buf ≠ sliceList reference offset chunk then .ok false
      else verifyBytesLoop f addr reference stopOnMismatch (offset + chunk)
  else if stopOnMismatch then .ok true else .ok true
termination_by reference.length - offset
decreasing_by omega

/-- `verify.rs::verify_bytes`: run the window loop from offset 0. -/
def verify_bytes (f : MockFlash) (addr : Nat) (reference : List Nat) (stopOnMismatch : Bool) :
    Except FlashError Bool :=
  verifyBytesLoop f addr reference stopOnMismatch 0

/-- `updater.rs::UpdateMetadata`. -/
structure UpdateMetadata where
  target_addr : Nat
  image_size : Nat
  expected_crc : Nat
deriving DecidableEq

/-- `updater.rs::UpdateError`. -/
inductive UpdateError where
  | flash (e : FlashError)
  | invalidSize
  | crcMismatch
  | transferIncomplete
  | other (reason : String)
deriving DecidableEq

/-- `updater.rs::FirmwareUpdater` without the borrowed device (the device
is passed alongside explicitly): immutable metadata plus the
`written` counter. -/
structure FirmwareUpdater where
  meta : UpdateMetadata
  written : Nat
deriving DecidableEq

/-- Erase loop of `FirmwareUpdater::begin_update`
(`while addr < target + size { erase_sector(addr); addr += sector_size }`).
The `sectorSize = 0` guard after a successful erase is unreachable
(`eraseSector` fails on a zero sector size) and exists only for
termination. -/
def eraseFrom (f : MockFlash) (addr stop : Nat) : MockFlash × Except FlashError Unit :=
  if h : addr < stop then
    match f.eraseSector addr with
    | (f', .error e) => (f', .error e)
    | (f', .ok _) =>
      if hz : f'.sectorSize = 0 then (f', .ok ())
      else eraseFrom f' (addr + f'.sectorSize) stop
  else (f, .ok ())
termination_by stop - addr
decreasing_by
  have : 0 < f'.sectorSize := Nat.pos_of_ne_zero hz
  omega

/-- `FirmwareUpdater::begin_update`: reject a zero image size, erase all
sectors covering the target region, return a fresh session with
`written = 0`. -/
def beginUpdate (f : MockFlash) (meta : UpdateMetadata) :
    MockFlash × Except UpdateError FirmwareUpdater :=
  if meta.image_size = 0 then (f, .error .invalidSize)
  else
    match eraseFrom f meta.target_addr (meta.target_addr + meta.image_size) with
    | (f', .error e) => (f', .error (.flash e))
    | (f', .ok _) => (f', .ok { meta := meta, written := 0 })

/-- `FirmwareUpdater::write_chunk`: reject a non-sequential offset,
delegate to `write_region` at `target_addr + offset`, and on success
advance `written` by the chunk length. -/
def writeChunk (u : FirmwareUpdater) (f : MockFlash) (offset : Nat) (data : List Nat) :
    FirmwareUpdater × MockFlash × Except UpdateError Unit :=
  if offset ≠ u.written then (u, f, .error (.other ("Offset mismatch")))
  else
    match f.writeRegion (u.meta.target_addr + offset) data with
    | (f', .error e) => (u, f', .error (.flash e))
    | (f', .ok _) => ({ u with written := u.written + data.length }, f', .ok ())

/-- `FirmwareUpdater::finalize_update`: reject an incomplete transfer,
then compare the region CRC with the expected checksum. -/
def finalizeUpdate (u : FirmwareUpdater) (f : MockFlash) : MockFlash × Except UpdateError Unit :=
  if u.written ≠ u.meta.image_size then (f, .error .transferIncomplete)
  else
    match verify_crc f u.meta.target_addr u.meta.image_size u.meta.expected_crc with
    | .error e => (f, .error (.flash e))
    | .ok ok => if !ok then (f, .error .crcMismatch) else (f, .ok ())

/-- Apply a sequence of `write_chunk` calls (offset, data) to a session,
keeping the session and device state across failed calls exactly as the
Rust caller would, and collecting the per-call results. -/
def runChunks (u : FirmwareUpdater) (f : MockFlash) :
    List (Nat × List Nat) → FirmwareUpdater × MockFlash × List (Except UpdateError Unit)
  | [] => (u, f, [])
  | (off, d) :: rest =>
    match writeChunk u f off d with
    | (u', f', r) =>
      match runChunks u' f' rest with
      | (u'', f'', rs) => (u'', f'', r :: rs)

/-- Metadata of the two-chunk end-to-end scenario used to evaluate the
session invariant: a 4-byte image `[1, 2, 3, 4]` with its correct
CRC-32 as the expected checksum. -/
def c1meta : UpdateMetadata :=
  { target_addr := 0, image_size := 4, expected_crc := crc32Bytes [1, 2, 3, 4] }

/-- The two-chunk scenario: `begin_update` on a fresh 8-byte device with
4-byte sectors and 2-byte pages, then the image delivered as contiguous
chunks `[1, 2]` at offset 0 and `[3, 4]` at offset 2. -/
def c1run : FirmwareUpdater × MockFlash × List (Except UpdateError Unit) :=
  runChunks { meta := c1meta, written := 0 }
    (beginUpdate (MockFlash.new 8 4 2) c1meta).1 [(0, [1, 2]), (2, [3, 4])]

/-! ### List-level helper lemmas -/

theorem getD_of_length_le (l : List Nat) (k : Nat) (h : l.length ≤ k) : l.getD k 0 = 0 := by
  induction l generalizing k with
  | nil => simp [List.getD]
  | cons a t ih =>
    cases k with
    | zero => simp at h
    | succ n => simpa using ih n (by simpa using h)

theorem getD_set_eq (l : List Nat) (i v : Nat) (h : i < l.length) : (l.set i v).getD i 0 = v := by
  induction l generalizing i with
  | nil => simp at h
  | cons a t ih =>
    cases i with
    | zero => simp
    | succ n => simpa using ih n (by simpa using h)

theorem getD_set_ne (l : List Nat) (i j v : Nat) (h : i ≠ j) :
    (l.set i v).getD j 0 = l.getD j 0 := by
  induction l generalizing i j with
  | nil => simp
  | cons a t ih =>
    cases i with
    | zero =>
      cases j with
      | zero => exact absurd rfl h
      | succ m => simp
    | succ n =>
      cases j with
      | zero => simp
      | succ m => simpa using ih n m (by omega)

theorem length_writeBytes (d : List Nat) : ∀ (st : List Nat) (a : Nat),
    (writeBytes st a d).length = st.length := by
  induction d with
  | nil => intro st a; rfl
  | cons b bs ih => intro st a; simpa [writeBytes] using ih (st.set a b) (a + 1)

theorem getD_writeBytes (d : List Nat) : ∀ (st : List Nat) (a j : Nat),
    a + d.length ≤ st.length →
    (writeBytes st a d).getD j 0 =
      if a ≤ j ∧ j < a + d.length then d.getD (j - a) 0 else st.getD j 0 := by
  induction d with
  | nil =>
    intro st a j _
    simp only [writeBytes, List.length_nil]
    rw [if_neg (by omega)]
  | cons b bs ih =>
    intro st a j hb
    have hb' : (a + 1) + bs.length ≤ (st.set a b).length := by
      simp only [List.length_set]; simp at hb; omega
    have h1 := ih (st.set a b) (a + 1) j hb'
    simp only [writeBytes]
    rw [h1]
    by_cases hc : (a + 1) ≤ j ∧ j < (a + 1) + bs.length
    · rw [if_pos hc, if_pos (by simp; omega)]
      have hj : j - a = (j - (a + 1)) + 1 := by omega
      rw [hj]
      simp
    · rw [if_neg hc]
      by_cases hja : j = a
      · rw [hja, getD_set_eq st a b (by simp at hb; omega), if_pos (by simp)]
        simp
      · rw [getD_set_ne st a j b (by omega)]
        rw [if_neg (by simp; omega)]

theorem eq_of_getD : ∀ (l1 l2 : List Nat), l1.length = l2.length →
    (∀ j, l1.getD j 0 = l2.getD j 0) → l1 = l2 := by
  intro l1
  induction l1 with
  | nil =>
    intro l2 hl _
    cases l2 with
    | nil => rfl
    | cons b bs => simp at hl
  | cons a t ih =>
    intro l2 hl h
    cases l2 with
    | nil => simp at hl
    | cons b bs =>
      have h0 := h 0
      simp at h0
      have ht := ih bs (by simpa using hl) (fun j => by simpa using h (j + 1))
      rw [h0, ht]

theorem getD_take (l : List Nat) : ∀ (n k : Nat),
    (l.take n).getD k 0 = if k < n then l.getD k 0 else 0 := by
  induction l with
  | nil => intro n k; simp [List.getD]
  | cons a t ih =>
    intro n k
    cases n with
    | zero => simp
    | succ m =>
      cases k with
      | zero => simp
      | succ j => simpa using ih m j

theorem getD_drop (l : List Nat) : ∀ (a k : Nat), (l.drop a).getD k 0 = l.getD (a + k) 0 := by
  induction l with
  | nil => intro a k; simp
  | cons x t ih =>
    intro a k
    cases a with
    | zero => simp
    | succ m =>
      have := ih m k
      simpa [Nat.succ_add] using this

theorem getD_sliceList (st : List Nat) (a n k : Nat) :
    (sliceList st a n).getD k 0 = if k < n then st.getD (a + k) 0 else 0 := by
  unfold sliceList
  rw [getD_take]
  by_cases h : k < n
  · rw [if_pos h, if_pos h, getD_drop]
  · rw [if_neg h, if_neg h]

theorem length_sliceList (st : List Nat) (a n : Nat) :
    (sliceList st a n).length = min n (st.length - a) := by
  simp [sliceList]

theorem sliceList_writeBytes (d st : List Nat) (a : Nat) (hb : a + d.length ≤ st.length) :
    sliceList (writeBytes st a d) a d.length = d := by
  apply eq_of_getD
  · rw [length_sliceList, length_writeBytes]; omega
  · intro j
    rw [getD_sliceList]
    by_cases h : j < d.length
    · rw [if_pos h, getD_writeBytes d st a (a + j) hb, if_pos (by omega)]
      congr 1
      omega
    · rw [if_neg h, getD_of_length_le d j (by omega)]

theorem writeBytes_append (d1 : List Nat) : ∀ (d2 st : List Nat) (a : Nat),
    writeBytes st a (d1 ++ d2) = writeBytes (writeBytes st a d1) (a + d1.length) d2 := by
  induction d1 with
  | nil => intro d2 st a; simp [writeBytes]
  | cons b bs ih =>
    intro d2 st a
    have h1 : writeBytes st a ((b :: bs) ++ d2) = writeBytes (st.set a b) (a + 1) (bs ++ d2) := rfl
    have h2 : writeBytes st a (b :: bs) = writeBytes (st.set a b) (a + 1) bs := rfl
    rw [h1, ih d2 (st.set a b) (a + 1), h2, List.length_cons]
    congr 1
    omega

theorem getD_replicate (v : Nat) : ∀ (n k : Nat),
    (List.replicate n v).getD k 0 = if k < n then v else 0 := by
  intro n
  induction n with
  | zero => intro k; simp
  | succ m ih =>
    intro k
    cases k with
    | zero => simp
    | succ j =>
      rw [List.replicate_succ]
      simpa using ih j

/-! ### Byte-programming lemmas -/

theorem getD_lt_of_forall (l : List Nat) (c : Nat) (h : ∀ b ∈ l, b < c) (k : Nat)
    (hk : k < l.length) : l.getD k 0 < c := by
  induction l generalizing k with
  | nil => simp at hk
  | cons a t ih =>
    cases k with
    | zero => simpa using h a (by simp)
    | succ m =>
      have := ih (fun b hb => h b (by simp [hb])) m (by simpa using hk)
      simpa using this

theorem land_255_of_lt (b : Nat) (h : b < 256) : b &&& 255 = b := by
  have h8 : b < 2 ^ 8 := by omega
  have := Nat.and_pow_two_sub_one_of_lt_two_pow h8
  simpa using this

theorem getD_as_getElem (l : List Nat) (n : Nat) : l[n]?.getD 0 = l.getD n 0 :=
  (List.getD_eq_getElem?_getD l n 0).symm

theorem progBytes_ok (d : List Nat) : ∀ (st : List Nat) (p : Nat),
    p + d.length ≤ st.length →
    (∀ j, j < d.length → d.getD j 0 &&& st.getD (p + j) 0 = d.getD j 0) →
    progBytes st p d = (writeBytes st p d, .ok ()) := by
  induction d with
  | nil => intro st p _ _; rfl
  | cons b bs ih =>
    intro st p hb hsub
    have h0 : b &&& st.getD p 0 = b := by simpa using hsub 0 (by simp)
    have hd : st.getD p 0 &&& b = b := by rw [Nat.land_comm]; exact h0
    have h0' : b &&& st[p]?.getD 0 = b := by rw [getD_as_getElem]; exact h0
    show progBytes st p (b :: bs) = (writeBytes st p (b :: bs), .ok ())
    simp only [progBytes, getD_as_getElem]
    rw [if_neg (by simp [h0'])]
    rw [hd]
    have hwb : writeBytes st p (b :: bs) = writeBytes (st.set p b) (p + 1) bs := rfl
    rw [hwb]
    apply ih (st.set p b) (p + 1)
    · simp only [List.length_set]
      simp at hb
      omega
    · intro j hj
      rw [getD_set_ne st p (p + 1 + j) b (by omega)]
      have := hsub (j + 1) (by simpa using hj)
      simp only [List.getD_cons_succ] at this
      have harr : p + (j + 1) = p + 1 + j := by omega
      rw [harr] at this
      exact this

theorem progBytes_err (k : Nat) : ∀ (d st : List Nat) (p : Nat),
    p + d.length ≤ st.length →
    k < d.length →
    (∀ j, j < k → d.getD j 0 &&& st.getD (p + j) 0 = d.getD j 0) →
    d.getD k 0 &&& st.getD (p + k) 0 ≠ d.getD k 0 →
    (progBytes st p d).2 = .error (.deviceError ("attempt to program 0->1")) ∧
    (∀ j, j < p ∨ p + k ≤ j → (progBytes st p d).1.getD j 0 = st.getD j 0) ∧
    (∀ j, j < k → (progBytes st p d).1.getD (p + j) 0 = st.getD (p + j) 0 &&& d.getD j 0) := by
  induction k with
  | zero =>
    intro d st p hb hk hfirst hviol
    cases d with
    | nil => simp at hk
    | cons b bs =>
      have hv : b &&& st.getD p 0 ≠ b := by simpa using hviol
      simp only [progBytes, getD_as_getElem]
      rw [if_pos (by simpa using hv)]
      exact ⟨rfl, fun j _ => rfl, fun j hj => absurd hj (by omega)⟩
  | succ m ih =>
    intro d st p hb hk hfirst hviol
    cases d with
    | nil => simp at hk
    | cons b bs =>
      have h0 : b &&& st.getD p 0 = b := by simpa using hfirst 0 (by omega)
      have hd : st.getD p 0 &&& b = b := by rw [Nat.land_comm]; exact h0
      have h0' : b &&& st[p]?.getD 0 = b := by rw [getD_as_getElem]; exact h0
      simp only [progBytes, getD_as_getElem]
      rw [if_neg (by simp [h0']), hd]
      have hple : p < st.length := by simp at hb; omega
      have hfirst' : ∀ j, j < m →
          bs.getD j 0 &&& (st.set p b).getD (p + 1 + j) 0 = bs.getD j 0 := by
        intro j hj
        rw [getD_set_ne st p (p + 1 + j) b (by omega)]
        have := hfirst (j + 1) (by omega)
        simp only [List.getD_cons_succ] at this
        have harr : p + (j + 1) = p + 1 + j := by omega
        rw [harr] at this
        exact this
      have hviol' : bs.getD m 0 &&& (st.set p b).getD (p + 1 + m) 0 ≠ bs.getD m 0 := by
        rw [getD_set_ne st p (p + 1 + m) b (by omega)]
        have harr : p + 1 + m = p + (m + 1) := by omega
        rw [harr]
        simpa using hviol
      obtain ⟨e1, e2, e3⟩ := ih bs (st.set p b) (p + 1)
        (by simp only [List.length_set]; simp at hb; omega) (by simpa using hk) hfirst' hviol'
      refine ⟨e1, ?_, ?_⟩
      · intro j hj
        rw [e2 j (by omega)]
        exact getD_set_ne st p j b (by omega)
      · intro j hj
        cases j with
        | zero =>
          simp only [Nat.add_zero, List.getD_cons_zero]
          rw [e2 p (Or.inl (by omega))]
          rw [getD_set_eq st p b hple]
          exact hd.symm
        | succ i =>
          have h3 := e3 i (by omega)
          rw [getD_set_ne st p (p + 1 + i) b (by omega)] at h3
          have harr : p + (i + 1) = p + 1 + i := by omega
          simp only [List.getD_cons_succ, harr]
          exact h3

theorem programPage_eq (f : MockFlash) (addr : Nat) (d : List Nat)
    (h1 : addr < f.storage.length) (h2 : d.length ≤ f.pageSize)
    (h3 : addr + d.length ≤ f.storage.length) :
    f.programPage addr d =
      ({ f with storage := (progBytes f.storage addr d).1 }, (progBytes f.storage addr d).2) := by
  unfold MockFlash.programPage
  rw [if_neg (by omega), if_neg (by omega), if_neg (by omega)]

theorem programPage_ok (f : MockFlash) (addr : Nat) (d : List Nat)
    (h1 : addr < f.storage.length) (h2 : d.length ≤ f.pageSize)
    (h3 : addr + d.length ≤ f.storage.length)
    (hsub : ∀ j, j < d.length → d.getD j 0 &&& f.storage.getD (addr + j) 0 = d.getD j 0) :
    f.programPage addr d = ({ f with storage := writeBytes f.storage addr d }, .ok ()) := by
  rw [programPage_eq f addr d h1 h2 h3, progBytes_ok d f.storage addr h3 hsub]

theorem compareAt_refl (xs : List Nat) : ∀ (base i : Nat), compareAt base i xs xs = .ok () := by
  induction xs with
  | nil => intro base i; rfl
  | cons a t ih =>
    intro base i
    simp only [compareAt]
    rw [if_neg (by simp)]
    exact ih base (i + 1)

theorem verify_self (f : MockFlash) (addr : Nat) (d : List Nat)
    (hb : addr + d.length ≤ f.storage.length)
    (hs : sliceList f.storage addr d.length = d) :
    f.verify addr d = .ok () := by
  unfold MockFlash.verify MockFlash.read
  rw [if_neg (by omega)]
  rw [hs]
  exact compareAt_refl d addr 0

theorem eraseSector_ok (f : MockFlash) (addr : Nat) (hs : 0 < f.sectorSize)
    (hal : addr % f.sectorSize = 0) (hb : addr + f.sectorSize ≤ f.storage.length) :
    f.eraseSector addr =
      ({ f with storage := writeBytes f.storage addr (List.replicate f.sectorSize 255) },
        .ok ()) := by
  unfold MockFlash.eraseSector
  rw [if_neg (by omega), if_neg (by omega), if_neg (by simp [hal]), if_neg (by omega)]

/-! ### Sector-erase loop characterisations -/

theorem eraseSectors_ok (n : Nat) : ∀ (f : MockFlash) (s e : Nat),
    e + 1 - s = n → 0 < f.sectorSize → (e + 1) * f.sectorSize ≤ f.storage.length →
    eraseSectors f s e =
      ({ f with
          storage := writeBytes f.storage (s * f.sectorSize)
            (List.replicate ((e + 1 - s) * f.sectorSize) 255) }, .ok ()) := by
  induction n with
  | zero =>
    intro f s e hn hs hb
    unfold eraseSectors
    rw [if_neg (by omega), hn]
    simp [writeBytes]
  | succ m ih =>
    intro f s e hn hs hb
    have hse : s ≤ e := by omega
    have hmul : (s + 1) * f.sectorSize ≤ (e + 1) * f.sectorSize :=
      Nat.mul_le_mul_right _ (by omega)
    have hbs : s * f.sectorSize + f.sectorSize ≤ f.storage.length := by
      rw [Nat.succ_mul] at hmul
      omega
    unfold eraseSectors
    rw [if_pos hse]
    rw [eraseSector_ok f (s * f.sectorSize) hs (Nat.mul_mod_left s f.sectorSize) hbs]
    show eraseSectors
      { f with
          storage := writeBytes f.storage (s * f.sectorSize)
            (List.replicate f.sectorSize 255) }
      (s + 1) e = _
    rw [ih
      { f with
          storage := writeBytes f.storage (s * f.sectorSize)
            (List.replicate f.sectorSize 255) }
      (s + 1) e (by omega) hs (by simpa [length_writeBytes] using hb)]
    have hcomb : writeBytes (writeBytes f.storage (s * f.sectorSize)
          (List.replicate f.sectorSize 255)) ((s + 1) * f.sectorSize)
          (List.replicate ((e + 1 - (s + 1)) * f.sectorSize) 255)
        = writeBytes f.storage (s * f.sectorSize)
          (List.replicate ((e + 1 - s) * f.sectorSize) 255) := by
      have hrep : (e + 1 - s) * f.sectorSize
          = f.sectorSize + (e + 1 - (s + 1)) * f.sectorSize := by
        have h1 : e + 1 - s = (e + 1 - (s + 1)) + 1 := by omega
        rw [h1, Nat.succ_mul]
        omega
      rw [hrep, List.replicate_add, writeBytes_append]
      have hlen : (List.replicate f.sectorSize (255 : Nat)).length = f.sectorSize := by simp
      rw [hlen]
      have harr : s * f.sectorSize + f.sectorSize = (s + 1) * f.sectorSize := by
        rw [Nat.succ_mul]
      rw [harr]
    rw [hcomb]

/-! ### Page-programming loop characterisation -/

theorem programLoop_step (f : MockFlash) (addr : Nat) (data : List Nat) (offset : Nat)
    (hp : f.pageSize ≠ 0) (hlt : offset < data.length) :
    programLoop f addr data offset =
      match f.programPage (addr + offset)
          ((data.drop offset).take (min (data.length - offset) f.pageSize)) with
      | (f', .error e) => (f', .error e)
      | (f', .ok _) =>
        match f'.verify (addr + offset)
            ((data.drop offset).take (min (data.length - offset) f.pageSize)) with
        | .error e => (f', .error e)
        | .ok _ => programLoop f' addr data (offset + min (data.length - offset) f.pageSize) := by
  rw [programLoop]
  rw [if_neg hp, dif_pos hlt]

theorem programLoop_stop (f : MockFlash) (addr : Nat) (data : List Nat) (offset : Nat)
    (hp : f.pageSize ≠ 0) (hge : ¬ offset < data.length) :
    programLoop f addr data offset = (f, .ok ()) := by
  rw [programLoop]
  rw [if_neg hp, dif_neg hge]

theorem programLoop_ok (n : Nat) : ∀ (f : MockFlash) (addr : Nat) (data : List Nat) (offset : Nat),
    data.length - offset = n → 0 < f.pageSize → addr + data.length ≤ f.storage.length →
    (∀ j, offset ≤ j → j < data.length → f.storage.getD (addr + j) 0 = 255) →
    (∀ b ∈ data, b < 256) →
    programLoop f addr data offset =
      ({ f with
          storage := writeBytes f.storage (addr + offset) (data.drop offset) }, .ok ()) := by
  induction n using Nat.strong_induction_on with
  | _ n ih =>
    intro f addr data offset hn hp hb h255 hbytes
    by_cases hlt : offset < data.length
    · rw [programLoop_step f addr data offset (by omega) hlt]
      have hWpos : 0 < min (data.length - offset) f.pageSize := by omega
      set W := min (data.length - offset) f.pageSize with hW
      set ps := (data.drop offset).take W with hpsdef
      have hWle : W ≤ data.length - offset := by omega
      have hps_len : ps.length = W := by
        rw [hpsdef]
        simp only [List.length_take, List.length_drop]
        omega
      have hsub : ∀ j, j < ps.length →
          ps.getD j 0 &&& f.storage.getD (addr + offset + j) 0 = ps.getD j 0 := by
        intro j hj
        have hjW : j < W := by omega
        have hget : ps.getD j 0 = data.getD (offset + j) 0 := by
          rw [hpsdef, getD_take, if_pos hjW, getD_drop]
        have h2 : f.storage.getD (addr + (offset + j)) 0 = 255 :=
          h255 (offset + j) (by omega) (by omega)
        have harr : addr + offset + j = addr + (offset + j) := by omega
        rw [harr, h2, hget]
        exact land_255_of_lt _ (getD_lt_of_forall data 256 hbytes (offset + j) (by omega))
      rw [programPage_ok f (addr + offset) ps (by omega)
        (by rw [hps_len]; exact Nat.min_le_right _ _) (by rw [hps_len]; omega) hsub]
      show (match MockFlash.verify
          { f with storage := writeBytes f.storage (addr + offset) ps } (addr + offset) ps with
        | .error e =>
          ({ f with storage := writeBytes f.storage (addr + offset) ps }, Except.error e)
        | .ok _ => programLoop { f with storage := writeBytes f.storage (addr + offset) ps }
            addr data (offset + W)) = _
      rw [verify_self
        { f with storage := writeBytes f.storage (addr + offset) ps } (addr + offset) ps
        (by simp only [length_writeBytes]; rw [hps_len]; omega)
        (by
          show sliceList (writeBytes f.storage (addr + offset) ps) (addr + offset) ps.length = ps
          exact sliceList_writeBytes ps f.storage (addr + offset) (by rw [hps_len]; omega))]
      show programLoop { f with storage := writeBytes f.storage (addr + offset) ps }
          addr data (offset + W) = _
      rw [ih (data.length - (offset + W)) (by omega)
        { f with storage := writeBytes f.storage (addr + offset) ps } addr data (offset + W)
        rfl hp (by simp only [length_writeBytes]; omega)
        (by
          intro j hj1 hj2
          show (writeBytes f.storage (addr + offset) ps).getD (addr + j) 0 = 255
          rw [getD_writeBytes ps f.storage (addr + offset) (addr + j) (by rw [hps_len]; omega)]
          rw [if_neg (by rw [hps_len]; omega)]
          exact h255 j (by omega) hj2)
        hbytes]
      have hcomb : writeBytes (writeBytes f.storage (addr + offset) ps) (addr + (offset + W))
          (data.drop (offset + W)) = writeBytes f.storage (addr + offset) (data.drop offset) := by
        have hdd : data.drop (offset + W) = (data.drop offset).drop W := by
          rw [List.drop_drop]
        have hsplit : ps ++ (data.drop offset).drop W = data.drop offset := by
          rw [hpsdef]
          exact List.take_append_drop W (data.drop offset)
        rw [hdd]
        conv_rhs => rw [← hsplit]
        rw [writeBytes_append, hps_len]
        have harr : addr + offset + W = addr + (offset + W) := by omega
        rw [harr]
      rw [hcomb]
    · rw [programLoop_stop f addr data offset (by omega) hlt]
      rw [List.drop_eq_nil_of_le (by omega)]
      show (f, Except.ok ()) = ({ f with storage := writeBytes f.storage (addr + offset) [] }, .ok ())
      rfl

/-! ### write_region success characterisation -/

theorem writeRegion_ok (f : MockFlash) (addr : Nat) (data : List Nat)
    (hs : 0 < f.sectorSize) (hp : 0 < f.pageSize) (hne : data ≠ [])
    (hbytes : ∀ b ∈ data, b < 256)
    (hcap : ((addr + data.length - 1) / f.sectorSize + 1) * f.sectorSize ≤ f.storage.length) :
    f.writeRegion addr data =
      ({ f with
          storage := writeBytes
            (writeBytes f.storage ((addr / f.sectorSize) * f.sectorSize)
              (List.replicate
                (((addr + data.length - 1) / f.sectorSize + 1 - addr / f.sectorSize)
                  * f.sectorSize) 255))
            addr data }, .ok ()) := by
  have hL : 0 < data.length := List.length_pos.mpr hne
  have hlt : addr + data.length - 1
      < ((addr + data.length - 1) / f.sectorSize + 1) * f.sectorSize := by
    have h := Nat.lt_mul_div_succ (addr + data.length - 1) hs
    rw [Nat.mul_comm] at h
    exact h
  have hbound : addr + data.length ≤ f.storage.length := by omega
  have hSle : addr / f.sectorSize * f.sectorSize ≤ addr := Nat.div_mul_le_self addr f.sectorSize
  have hSE : addr / f.sectorSize ≤ (addr + data.length - 1) / f.sectorSize :=
    Nat.div_le_div_right (by omega)
  have hmulsplit : addr / f.sectorSize * f.sectorSize
      + ((addr + data.length - 1) / f.sectorSize + 1 - addr / f.sectorSize) * f.sectorSize
      = ((addr + data.length - 1) / f.sectorSize + 1) * f.sectorSize := by
    rw [← Nat.add_mul]
    congr 1
    omega
  have hu : usizeSub1 (addr + data.length) = addr + data.length - 1 := by
    unfold usizeSub1
    rw [if_neg (by omega)]
  unfold MockFlash.writeRegion
  rw [if_neg (by omega), if_neg (by omega), hu]
  show (match eraseSectors f (addr / f.sectorSize) ((addr + data.length - 1) / f.sectorSize) with
    | (f', Except.error e) => (f', Except.error e)
    | (f', Except.ok _) =>
      if f'.pageSize = 0 then (f', Except.error (FlashError.deviceError ("invalid page size")))
      else programLoop f' addr data 0) = _
  rw [eraseSectors_ok ((addr + data.length - 1) / f.sectorSize + 1 - addr / f.sectorSize) f
    (addr / f.sectorSize) ((addr + data.length - 1) / f.sectorSize) rfl hs hcap]
  show (if f.pageSize = 0 then _ else _) = _
  rw [if_neg (show ¬ f.pageSize = 0 by omega)]
  rw [programLoop_ok data.length
    { f with
        storage := writeBytes f.storage (addr / f.sectorSize * f.sectorSize)
          (List.replicate
            (((addr + data.length - 1) / f.sectorSize + 1 - addr / f.sectorSize)
              * f.sectorSize) 255) }
    addr data 0 (by simp) hp (by simpa [length_writeBytes] using hbound)
    (by
      intro j hj0 hjL
      show (writeBytes f.storage (addr / f.sectorSize * f.sectorSize)
        (List.replicate
          (((addr + data.length - 1) / f.sectorSize + 1 - addr / f.sectorSize)
            * f.sectorSize) 255)).getD (addr + j) 0 = 255
      rw [getD_writeBytes _ f.storage (addr / f.sectorSize * f.sectorSize) (addr + j)
        (by simpa [List.length_replicate] using (by omega :
          addr / f.sectorSize * f.sectorSize
            + ((addr + data.length - 1) / f.sectorSize + 1 - addr / f.sectorSize) * f.sectorSize
            ≤ f.storage.length))]
      rw [if_pos (by simp only [List.length_replicate]; omega)]
      rw [getD_replicate]
      rw [if_pos (by omega)])
    hbytes]
  simp only [Nat.add_zero, List.drop_zero]

/-! ### Session-level lemmas -/

theorem eraseFrom_ok (k : Nat) : ∀ (f : MockFlash) (addr stop : Nat),
    0 < f.sectorSize → addr % f.sectorSize = 0 →
    (stop - addr + f.sectorSize - 1) / f.sectorSize = k →
    addr + k * f.sectorSize ≤ f.storage.length →
    eraseFrom f addr stop =
      ({ f with
          storage := writeBytes f.storage addr (List.replicate (k * f.sectorSize) 255) },
        .ok ()) := by
  induction k with
  | zero =>
    intro f addr stop hs hal hk hb
    have hstop : ¬ addr < stop := by
      intro hc
      have h1 : f.sectorSize ≤ stop - addr + f.sectorSize - 1 := by omega
      have h2 := (Nat.one_le_div_iff hs).mpr h1
      omega
    rw [eraseFrom, dif_neg hstop]
    simp [writeBytes]
  | succ m ih =>
    intro f addr stop hs hal hk hb
    have hsm : (m + 1) * f.sectorSize = m * f.sectorSize + f.sectorSize := Nat.succ_mul m _
    have hlt : addr < stop := by
      by_contra hc
      have h0 : stop - addr = 0 := by omega
      rw [h0] at hk
      have h1 : (0 + f.sectorSize - 1) / f.sectorSize = 0 := Nat.div_eq_of_lt (by omega)
      omega
    rw [eraseFrom, dif_pos hlt]
    rw [eraseSector_ok f addr hs hal (by omega)]
    show (if f.sectorSize = 0 then _ else _) = _
    rw [if_neg (show ¬ f.sectorSize = 0 by omega)]
    show eraseFrom
      { f with storage := writeBytes f.storage addr (List.replicate f.sectorSize 255) }
      (addr + f.sectorSize) stop = _
    have hk' : (stop - (addr + f.sectorSize) + f.sectorSize - 1) / f.sectorSize = m := by
      by_cases hcase : stop - addr ≤ f.sectorSize
      · have h0 : stop - (addr + f.sectorSize) = 0 := by omega
        have h1 : stop - addr + f.sectorSize - 1 = (stop - addr - 1) + f.sectorSize := by omega
        rw [h1, Nat.add_div_right _ hs] at hk
        have h2 : (stop - addr - 1) / f.sectorSize = 0 := Nat.div_eq_of_lt (by omega)
        rw [h0]
        have h3 : (0 + f.sectorSize - 1) / f.sectorSize = 0 := Nat.div_eq_of_lt (by omega)
        omega
      · have h1 : stop - addr + f.sectorSize - 1 = (stop - addr - 1) + f.sectorSize := by omega
        rw [h1, Nat.add_div_right _ hs] at hk
        have h2 : stop - (addr + f.sectorSize) + f.sectorSize - 1 = stop - addr - 1 := by omega
        rw [h2]
        omega
    rw [ih { f with storage := writeBytes f.storage addr (List.replicate f.sectorSize 255) }
      (addr + f.sectorSize) stop hs (by simpa [Nat.add_mod_right] using hal) hk'
      (by simpa [length_writeBytes] using (by omega :
        addr + f.sectorSize + m * f.sectorSize ≤ f.storage.length))]
    have hcomb : writeBytes (writeBytes f.storage addr (List.replicate f.sectorSize 255))
        (addr + f.sectorSize) (List.replicate (m * f.sectorSize) 255)
        = writeBytes f.storage addr (List.replicate ((m + 1) * f.sectorSize) 255) := by
      have hrep : (m + 1) * f.sectorSize = f.sectorSize + m * f.sectorSize := by omega
      rw [hrep, List.replicate_add, writeBytes_append]
      simp
    rw [hcomb]

theorem beginUpdate_ok (f : MockFlash) (m : UpdateMetadata)
    (hs : 0 < f.sectorSize) (hal : m.target_addr % f.sectorSize = 0) (hsz : 0 < m.image_size)
    (hcap : m.target_addr + ((m.image_size + f.sectorSize - 1) / f.sectorSize) * f.sectorSize
      ≤ f.storage.length) :
    beginUpdate f m =
      ({ f with
          storage := writeBytes f.storage m.target_addr
            (List.replicate (((m.image_size + f.sectorSize - 1) / f.sectorSize)
              * f.sectorSize) 255) },
        .ok { meta := m, written := 0 }) := by
  unfold beginUpdate
  rw [if_neg (by omega)]
  rw [eraseFrom_ok ((m.image_size + f.sectorSize - 1) / f.sectorSize) f m.target_addr
    (m.target_addr + m.image_size) hs hal (by congr 2; omega) hcap]

theorem beginUpdate_invalidSize_iff (f : MockFlash) (m : UpdateMetadata) :
    (beginUpdate f m).2 = .error .invalidSize ↔ m.image_size = 0 := by
  unfold beginUpdate
  by_cases h : m.image_size = 0
  · simp [h]
  · rw [if_neg h]
    rcases he : eraseFrom f m.target_addr (m.target_addr + m.image_size) with ⟨f', r⟩
    cases r with
    | error e => simp [he, h]
    | ok _ => simp [he, h]

theorem writeChunk_cases (u : FirmwareUpdater) (f : MockFlash) (off : Nat) (d : List Nat) :
    (writeChunk u f off d).1.meta = u.meta ∧
    ((writeChunk u f off d).1.written = u.written ∨
      (off = u.written ∧ (writeChunk u f off d).1.written = u.written + d.length)) := by
  unfold writeChunk
  by_cases hoff : off ≠ u.written
  · rw [if_pos hoff]
    exact ⟨rfl, Or.inl rfl⟩
  · rw [if_neg hoff]
    rcases hr : MockFlash.writeRegion f (u.meta.target_addr + off) d with ⟨f2, r2⟩
    cases r2 with
    | error e => exact ⟨rfl, Or.inl rfl⟩
    | ok _ => exact ⟨rfl, Or.inr ⟨by omega, rfl⟩⟩

theorem runChunks_inv (chunks : List (Nat × List Nat)) : ∀ (u : FirmwareUpdater) (f : MockFlash),
    (runChunks u f chunks).1.meta = u.meta ∧
    ((∀ c ∈ chunks, c.1 + c.2.length ≤ u.meta.image_size) →
      u.written ≤ u.meta.image_size →
      (runChunks u f chunks).1.written ≤ u.meta.image_size) := by
  induction chunks with
  | nil => intro u f; exact ⟨rfl, fun _ h => h⟩
  | cons c rest ih =>
    intro u f
    rcases c with ⟨off, d⟩
    unfold runChunks
    rcases hw : writeChunk u f off d with ⟨u', f', r⟩
    dsimp only
    rcases hrest : runChunks u' f' rest with ⟨u'', f'', rs⟩
    dsimp only
    obtain ⟨hmeta, hwrt⟩ := writeChunk_cases u f off d
    rw [hw] at hmeta hwrt
    dsimp only at hmeta hwrt
    obtain ⟨hmeta2, hwrt2⟩ := ih u' f'
    rw [hrest] at hmeta2 hwrt2
    dsimp only at hmeta2 hwrt2
    constructor
    · show u''.meta = u.meta
      rw [hmeta2, hmeta]
    · intro hall hle
      show u''.written ≤ u.meta.image_size
      have hchunk : off + d.length ≤ u.meta.image_size := hall (off, d) (by simp)
      have hu' : u'.written ≤ u'.meta.image_size := by
        rw [hmeta]
        rcases hwrt with h | ⟨h1, h2⟩
        · omega
        · omega
      have hall' : ∀ c ∈ rest, c.1 + c.2.length ≤ u'.meta.image_size := by
        intro c hc
        rw [hmeta]
        exact hall c (by simp [hc])
      have := hwrt2 hall' hu'
      rw [hmeta] at this
      exact this

theorem crc32_ok (f : MockFlash) (addr len : Nat) (hb : addr + len ≤ f.storage.length) :
    f.crc32 addr len = .ok (crc32Bytes (sliceList f.storage addr len)) := by
  unfold MockFlash.crc32 MockFlash.read
  rw [if_neg (by omega), if_neg (by omega)]

theorem verify_crc_ok (f : MockFlash) (addr len expected : Nat)
    (hb : addr + len ≤ f.storage.length) :
    verify_crc f addr len expected
      = .ok (crc32Bytes (sliceList f.storage addr len) == expected) := by
  unfold verify_crc
  rw [crc32_ok f addr len hb]

theorem verifyBytesLoop_false (f : MockFlash) (addr : Nat) (reference : List Nat) :
    ∀ (n offset : Nat), reference.length - offset = n →
    addr + reference.length ≤ f.storage.length →
    verifyBytesLoop f addr reference false offset = .ok true := by
  intro n
  induction n using Nat.strong_induction_on with
  | _ n ih =>
    intro offset hn hb
    by_cases hlt : offset < reference.length
    · rw [verifyBytesLoop, dif_pos hlt]
      have hread : f.read (addr + offset) (min 256 (reference.length - offset))
          = .ok (sliceList f.storage (addr + offset) (min 256 (reference.length - offset))) := by
        unfold MockFlash.read
        rw [if_neg (by omega)]
      show (match f.read (addr + offset) (min 256 (reference.length - offset)) with
        | .error e => .error e
        | .ok buf =>
          if (false : Bool) ∧ buf ≠ sliceList reference offset (min 256 (reference.length - offset))
          then Except.ok false
          else verifyBytesLoop f addr reference false
            (offset + min 256 (reference.length - offset))) = Except.ok true
      rw [hread]
      show (if (false : Bool) ∧
          sliceList f.storage (addr + offset) (min 256 (reference.length - offset))
            ≠ sliceList reference offset (min 256 (reference.length - offset))
        then Except.ok false
        else verifyBytesLoop f addr reference false
          (offset + min 256 (reference.length - offset))) = Except.ok true
      rw [if_neg (by simp)]
      exact ih (reference.length - (offset + min 256 (reference.length - offset))) (by omega)
        (offset + min 256 (reference.length - offset)) rfl hb
    · rw [verifyBytesLoop, dif_neg hlt]
      rfl

/-! ### Claim theorems -/

/-- C2: for every mock flash device and in-bounds `(addr, data)` with
`data.length ≤ pageSize`, `program_page` followed by `verify` of the same
data succeeds if and only if every required bit transition is 1→0 or
unchanged (each new byte is a submask of the resident byte); and whenever
some byte would need a 0→1 transition, `program_page` fails with the
`attempt to program 0->1` device error and every such violating byte is
left unchanged. -/
theorem claim_C2_programPage_verify (f : MockFlash) (addr : Nat) (data : List Nat)
    (h1 : addr < f.storage.length) (h2 : data.length ≤ f.pageSize)
    (h3 : addr + data.length ≤ f.storage.length) :
    (((f.programPage addr data).2 = .ok ()
        ∧ (f.programPage addr data).1.verify addr data = .ok ())
      ↔ (∀ j, j < data.length → data.getD j 0 &&& f.storage.getD (addr + j) 0 = data.getD j 0)) ∧
    (∀ j, j < data.length → data.getD j 0 &&& f.storage.getD (addr + j) 0 ≠ data.getD j 0 →
      (f.programPage addr data).2 = .error (.deviceError ("attempt to program 0->1")) ∧
      (f.programPage addr data).1.storage.getD (addr + j) 0 = f.storage.getD (addr + j) 0) := by
  constructor
  · constructor
    · intro hok
      by_contra hnot
      push_neg at hnot
      obtain ⟨j0, hj0, hviol0⟩ := hnot
      have hex : ∃ j, j < data.length
          ∧ data.getD j 0 &&& f.storage.getD (addr + j) 0 ≠ data.getD j 0 := ⟨j0, hj0, hviol0⟩
      obtain ⟨e1, _, _⟩ := progBytes_err (Nat.find hex) data f.storage addr h3
        (Nat.find_spec hex).1
        (fun i hi => by
          have hilt : i < data.length := by
            have := (Nat.find_spec hex).1
            omega
          have := Nat.find_min hex hi
          push_neg at this
          exact this hilt)
        (Nat.find_spec hex).2
      rw [programPage_eq f addr data h1 h2 h3] at hok
      rw [e1] at hok
      simp at hok
    · intro hsub
      rw [programPage_ok f addr data h1 h2 h3 (fun j hj => hsub j hj)]
      refine ⟨rfl, ?_⟩
      apply verify_self
      · simpa [length_writeBytes] using h3
      · exact sliceList_writeBytes data f.storage addr h3
  · intro j hj hviol
    have hex : ∃ i, i < data.length
        ∧ data.getD i 0 &&& f.storage.getD (addr + i) 0 ≠ data.getD i 0 := ⟨j, hj, hviol⟩
    obtain ⟨e1, e2, _⟩ := progBytes_err (Nat.find hex) data f.storage addr h3
      (Nat.find_spec hex).1
      (fun i hi => by
        have hilt : i < data.length := by
          have := (Nat.find_spec hex).1
          omega
        have := Nat.find_min hex hi
        push_neg at this
        exact this hilt)
      (Nat.find_spec hex).2
    have hjge : Nat.find hex ≤ j := by
      by_contra hc
      have := Nat.find_min hex (by omega : j < Nat.find hex)
      push_neg at this
      exact hviol (this hj)
    rw [programPage_eq f addr data h1 h2 h3]
    exact ⟨e1, e2 (addr + j) (Or.inr (by omega))⟩

/-- C2 witness: a concrete device `[255, 0]` with data `[170, 5]`: the
second byte needs a 0→1 transition, so programming fails with the device
error and the violating byte stays `0`. -/
theorem claim_C2_witness :
    ((((MockFlash.mk [255, 0] 2 2).programPage 0 [170, 5]).2 = .ok ()
        ∧ ((MockFlash.mk [255, 0] 2 2).programPage 0 [170, 5]).1.verify 0 [170, 5] = .ok ())
      ↔ (∀ j, j < [170, 5].length →
          [170, 5].getD j 0 &&& (MockFlash.mk [255, 0] 2 2).storage.getD (0 + j) 0
            = [170, 5].getD j 0)) ∧
    (∀ j, j < [170, 5].length →
      [170, 5].getD j 0 &&& (MockFlash.mk [255, 0] 2 2).storage.getD (0 + j) 0
        ≠ [170, 5].getD j 0 →
      (((MockFlash.mk [255, 0] 2 2).programPage 0 [170, 5]).2
        = .error (.deviceError ("attempt to program 0->1"))) ∧
      ((MockFlash.mk [255, 0] 2 2).programPage 0 [170, 5]).1.storage.getD (0 + j) 0
        = (MockFlash.mk [255, 0] 2 2).storage.getD (0 + j) 0) :=
  claim_C2_programPage_verify (MockFlash.mk [255, 0] 2 2) 0 [170, 5]
    (by decide) (by decide) (by decide)

/-- C10: when `program_page` hits the 0→1 programming violation at the
first violating index `k`, the mock device is left partially updated:
every byte strictly before index `k` has already been replaced by
`old AND new`, while the violating byte and all later bytes are
unchanged. -/
theorem claim_C10_programPage_partial (f : MockFlash) (addr : Nat) (data : List Nat) (k : Nat)
    (h1 : addr < f.storage.length) (h2 : data.length ≤ f.pageSize)
    (h3 : addr + data.length ≤ f.storage.length)
    (hk : k < data.length)
    (hfirst : ∀ j, j < k → data.getD j 0 &&& f.storage.getD (addr + j) 0 = data.getD j 0)
    (hviol : data.getD k 0 &&& f.storage.getD (addr + k) 0 ≠ data.getD k 0) :
    (f.programPage addr data).2 = .error (.deviceError ("attempt to program 0->1")) ∧
    (∀ j, j < data.length →
      (f.programPage addr data).1.storage.getD (addr + j) 0 =
        if j < k then f.storage.getD (addr + j) 0 &&& data.getD j 0
        else f.storage.getD (addr + j) 0) := by
  obtain ⟨e1, e2, e3⟩ := progBytes_err k data f.storage addr h3 hk hfirst hviol
  rw [programPage_eq f addr data h1 h2 h3]
  refine ⟨e1, ?_⟩
  intro j hjlen
  by_cases hjk : j < k
  · rw [if_pos hjk]
    exact e3 j hjk
  · rw [if_neg hjk]
    exact e2 (addr + j) (Or.inr (by omega))

/-- C10 witness: device bytes `[240, 15, 255]`, data `[48, 240]`: index 0
(`48` into `240`) programs fine, index 1 (`240` into `15`) violates, so
the call errors with byte 0 already changed to `240 AND 48 = 48` and
byte 1 untouched. -/
theorem claim_C10_witness :
    (((MockFlash.mk [240, 15, 255] 3 3).programPage 0 [48, 240]).2
      = .error (.deviceError ("attempt to program 0->1"))) ∧
    (∀ j, j < [48, 240].length →
      ((MockFlash.mk [240, 15, 255] 3 3).programPage 0 [48, 240]).1.storage.getD (0 + j) 0 =
        if j < 1 then (MockFlash.mk [240, 15, 255] 3 3).storage.getD (0 + j) 0
            &&& [48, 240].getD j 0
        else (MockFlash.mk [240, 15, 255] 3 3).storage.getD (0 + j) 0) :=
  claim_C10_programPage_partial (MockFlash.mk [240, 15, 255] 3 3) 0 [48, 240] 1
    (by decide) (by decide) (by decide) (by decide) (by decide) (by decide)

/-- C6: `write_chunk` fails with the `Offset mismatch` update error if
and only if the offset differs from `written`; on a matching offset it
delegates to `write_region` at `target_addr + offset`, wraps any flash
error, and on success increments `written` by exactly the chunk
length. -/
theorem claim_C6_writeChunk (u : FirmwareUpdater) (f : MockFlash) (off : Nat) (d : List Nat) :
    ((writeChunk u f off d).2.2 = .error (.other ("Offset mismatch")) ↔ off ≠ u.written) ∧
    (off ≠ u.written → writeChunk u f off d = (u, f, .error (.other ("Offset mismatch")))) ∧
    (off = u.written →
      (∀ f' e, f.writeRegion (u.meta.target_addr + off) d = (f', .error e) →
        writeChunk u f off d = (u, f', .error (.flash e))) ∧
      (∀ f', f.writeRegion (u.meta.target_addr + off) d = (f', .ok ()) →
        writeChunk u f off d =
          ({ meta := u.meta, written := u.written + d.length }, f', .ok ()))) := by
  unfold writeChunk
  by_cases h : off ≠ u.written
  · rw [if_pos h]
    exact ⟨by simp [h], fun _ => rfl, fun hc => absurd hc h⟩
  · rw [if_neg h]
    rcases hr : MockFlash.writeRegion f (u.meta.target_addr + off) d with ⟨f2, r2⟩
    cases r2 with
    | error e2 =>
      refine ⟨by simp [h], fun hc => absurd hc h, fun _ => ⟨?_, ?_⟩⟩
      · intro f' e hEq
        have hf : f2 = f' := congrArg Prod.fst hEq
        have he : Except.error e2 = (Except.error e : Except FlashError Unit) :=
          congrArg Prod.snd hEq
        simp at he
        rw [← hf, ← he]
      · intro f' hEq
        have he : (Except.error e2 : Except FlashError Unit) = .ok () :=
          congrArg Prod.snd hEq
        simp at he
    | ok _ =>
      refine ⟨by simp [h], fun hc => absurd hc h, fun _ => ⟨?_, ?_⟩⟩
      · intro f' e hEq
        have he : (Except.ok () : Except FlashError Unit) = .error e :=
          congrArg Prod.snd hEq
        simp at he
      · intro f' hEq
        have hf : f2 = f' := congrArg Prod.fst hEq
        rw [← hf]

/-- C6 witness: with `written = 0`, a chunk at offset 1 is rejected with
the `Offset mismatch` error and neither session nor device changes. -/
theorem claim_C6_witness :
    writeChunk { meta := { target_addr := 0, image_size := 4, expected_crc := 0 }, written := 0 }
        (MockFlash.new 8 4 4) 1 []
      = ({ meta := { target_addr := 0, image_size := 4, expected_crc := 0 }, written := 0 },
        MockFlash.new 8 4 4, .error (.other ("Offset mismatch"))) :=
  (claim_C6_writeChunk
    { meta := { target_addr := 0, image_size := 4, expected_crc := 0 }, written := 0 }
    (MockFlash.new 8 4 4) 1 []).2.1 (by decide)

/-- C8: `verify_bytes` with `stop_on_mismatch = false` returns `Ok(true)`
for every in-bounds call, regardless of whether the flash contents match
the reference buffer: the false path never reports a mismatch. -/
theorem claim_C8_verifyBytes_false (f : MockFlash) (addr : Nat) (reference : List Nat)
    (hb : addr + reference.length ≤ f.storage.length) :
    verify_bytes f addr reference false = .ok true := by
  unfold verify_bytes
  exact verifyBytesLoop_false f addr reference reference.length 0 rfl hb

/-- C8 witness: flash holding `[0, 0, 0, 0]` compared against the
non-matching reference `[1, 2]` still yields `Ok(true)` when
`stop_on_mismatch` is false. -/
theorem claim_C8_witness :
    verify_bytes (MockFlash.mk [0, 0, 0, 0] 2 2) 0 [1, 2] false = .ok true :=
  claim_C8_verifyBytes_false (MockFlash.mk [0, 0, 0, 0] 2 2) 0 [1, 2] (by decide)

/-- C4: `finalize_update` fails with `TransferIncomplete` if and only if
`written ≠ image_size` (regardless of checksum correctness); otherwise
(for a region inside capacity) it computes the CRC-32 of
`[target_addr, target_addr + image_size)` and fails with `CrcMismatch`
exactly when that checksum differs from `expected_crc`, succeeding
exactly when it matches. -/
theorem claim_C4_finalizeUpdate (u : FirmwareUpdater) (f : MockFlash)
    (hb : u.meta.target_addr + u.meta.image_size ≤ f.storage.length) :
    ((finalizeUpdate u f).2 = .error .transferIncomplete ↔ u.written ≠ u.meta.image_size) ∧
    (u.written = u.meta.image_size →
      (((finalizeUpdate u f).2 = .error .crcMismatch)
        ↔ crc32Bytes (sliceList f.storage u.meta.target_addr u.meta.image_size)
            ≠ u.meta.expected_crc) ∧
      (((finalizeUpdate u f).2 = .ok ())
        ↔ crc32Bytes (sliceList f.storage u.meta.target_addr u.meta.image_size)
            = u.meta.expected_crc)) := by
  unfold finalizeUpdate
  by_cases hw : u.written ≠ u.meta.image_size
  · rw [if_pos hw]
    exact ⟨by simp [hw], fun hc => absurd hc hw⟩
  · rw [if_neg hw]
    push_neg at hw
    rw [verify_crc_ok f u.meta.target_addr u.meta.image_size u.meta.expected_crc hb]
    by_cases hc : crc32Bytes (sliceList f.storage u.meta.target_addr u.meta.image_size)
        = u.meta.expected_crc
    · have hbeq : (crc32Bytes (sliceList f.storage u.meta.target_addr u.meta.image_size)
          == u.meta.expected_crc) = true := by simp [hc]
      rw [hbeq]
      exact ⟨by simp [hw], fun _ => ⟨by simp [hc], by simp [hc]⟩⟩
    · have hbeq : (crc32Bytes (sliceList f.storage u.meta.target_addr u.meta.image_size)
          == u.meta.expected_crc) = false := by simp [hc]
      rw [hbeq]
      exact ⟨by simp [hw], fun _ => ⟨by simp [hc], by simp [hc]⟩⟩

/-- C4 witness: a session with `written = 0` but `image_size = 1` is
rejected with `TransferIncomplete`. -/
theorem claim_C4_witness :
    (finalizeUpdate
        { meta := { target_addr := 0, image_size := 1, expected_crc := 0 }, written := 0 }
        (MockFlash.new 4 4 4)).2 = .error .transferIncomplete := by
  have h := claim_C4_finalizeUpdate
    { meta := { target_addr := 0, image_size := 1, expected_crc := 0 }, written := 0 }
    (MockFlash.new 4 4 4) (by decide)
  exact h.1.mpr (by decide)

/-- C3 counterexample: the claimed invariant `bytesWritten ≤ imageSize`
fails on the code: after a successful `begin_update` with
`image_size = 4`, a single oversized `write_chunk` of 8 bytes succeeds
(no check against the remaining image size) and leaves `written = 8`. -/
theorem claim_C3_counterexample :
    ((beginUpdate (MockFlash.new 16 4 4)
        { target_addr := 0, image_size := 4, expected_crc := 0 }).2
      = .ok { meta := { target_addr := 0, image_size := 4, expected_crc := 0 }, written := 0 }) ∧
    ((writeChunk { meta := { target_addr := 0, image_size := 4, expected_crc := 0 }, written := 0 }
        (beginUpdate (MockFlash.new 16 4 4)
          { target_addr := 0, image_size := 4, expected_crc := 0 }).1
        0 (List.replicate 8 0)).2.2 = .ok ()) ∧
    ¬ ((writeChunk { meta := { target_addr := 0, image_size := 4, expected_crc := 0 }, written := 0 }
        (beginUpdate (MockFlash.new 16 4 4)
          { target_addr := 0, image_size := 4, expected_crc := 0 }).1
        0 (List.replicate 8 0)).1.written ≤ 4) := by
  refine ⟨?_, ?_, ?_⟩ <;>
    simp +decide [beginUpdate, eraseFrom, MockFlash.eraseSector, MockFlash.new, writeBytes,
      writeChunk, MockFlash.writeRegion, eraseSectors, usizeSub1, programLoop,
      MockFlash.programPage, progBytes, MockFlash.verify, MockFlash.read, sliceList, compareAt]

/-- C3 amended: `0 ≤ bytesWritten` holds trivially, and
`bytesWritten ≤ imageSize` holds after any sequence of `write_chunk`
calls (successful or failed) provided every chunk call satisfies
`offset + data.length ≤ imageSize`. -/
theorem claim_C3_written_le (f : MockFlash) (m : UpdateMetadata) (u : FirmwareUpdater)
    (f' : MockFlash) (chunks : List (Nat × List Nat))
    (hbegin : (beginUpdate f m).2 = .ok u)
    (hchunks : ∀ c ∈ chunks, c.1 + c.2.length ≤ m.image_size) :
    (runChunks u f' chunks).1.written ≤ m.image_size := by
  have hu : u.meta = m ∧ u.written = 0 := by
    unfold beginUpdate at hbegin
    by_cases h : m.image_size = 0
    · rw [if_pos h] at hbegin
      simp at hbegin
    · rw [if_neg h] at hbegin
      rcases he : eraseFrom f m.target_addr (m.target_addr + m.image_size) with ⟨f2, r2⟩
      rw [he] at hbegin
      cases r2 with
      | error e => simp at hbegin
      | ok _ =>
        simp at hbegin
        rw [← hbegin]
        exact ⟨rfl, rfl⟩
  obtain ⟨hm, hw0⟩ := hu
  have hres := (runChunks_inv chunks u f').2 (by rw [hm]; exact hchunks)
    (by rw [hw0]; exact Nat.zero_le _)
  rw [hm] at hres
  exact hres

/-- C3 witness: two in-budget chunks keep `written` within the 4-byte
image size. -/
theorem claim_C3_witness :
    (runChunks { meta := { target_addr := 0, image_size := 4, expected_crc := 0 }, written := 0 }
        (beginUpdate (MockFlash.new 16 4 4)
          { target_addr := 0, image_size := 4, expected_crc := 0 }).1
        [(0, [1, 2]), (2, [3, 4])]).1.written ≤ 4 :=
  claim_C3_written_le (MockFlash.new 16 4 4)
    { target_addr := 0, image_size := 4, expected_crc := 0 }
    { meta := { target_addr := 0, image_size := 4, expected_crc := 0 }, written := 0 }
    (beginUpdate (MockFlash.new 16 4 4)
      { target_addr := 0, image_size := 4, expected_crc := 0 }).1
    [(0, [1, 2]), (2, [3, 4])]
    (by simp +decide [beginUpdate, eraseFrom, MockFlash.eraseSector, MockFlash.new, writeBytes])
    (by decide)

/-- C7 counterexample: with a non-sector-aligned target address (1, with
256-byte capacity 8 and sector size 4), the covering sector `[0, 4)`
exists within capacity, yet `begin_update` fails with an
`AlignmentError` instead of erasing it: the first erase call uses the
raw target address. -/
theorem claim_C7_counterexample :
    (beginUpdate (MockFlash.new 8 4 4)
        { target_addr := 1, image_size := 1, expected_crc := 0 }).2
      = .error (.flash .alignmentError) := by
  simp +decide [beginUpdate, eraseFrom, MockFlash.eraseSector, MockFlash.new]

/-- C7 amended: `begin_update` fails with `InvalidSize` if and only if
`image_size = 0`; and for a positive image size with a sector-aligned
target address whose covering sectors lie within capacity, it erases
exactly the `ceil(image_size / sector_size)` covering sectors (setting
them to 0xFF) and returns a session with `written = 0`. -/
theorem claim_C7_beginUpdate (f : MockFlash) (m : UpdateMetadata) :
    ((beginUpdate f m).2 = .error .invalidSize ↔ m.image_size = 0) ∧
    (0 < f.sectorSize → m.target_addr % f.sectorSize = 0 → 0 < m.image_size →
      m.target_addr + ((m.image_size + f.sectorSize - 1) / f.sectorSize) * f.sectorSize
        ≤ f.storage.length →
      beginUpdate f m =
        ({ f with
            storage := writeBytes f.storage m.target_addr
              (List.replicate
                (((m.image_size + f.sectorSize - 1) / f.sectorSize) * f.sectorSize) 255) },
          .ok { meta := m, written := 0 })) :=
  ⟨beginUpdate_invalidSize_iff f m, fun hs hal hsz hcap => beginUpdate_ok f m hs hal hsz hcap⟩

/-- C7 witness: image size 2 with sector size 4 at aligned target 0
erases one sector and opens the session. -/
theorem claim_C7_witness :
    beginUpdate (MockFlash.new 8 4 4) { target_addr := 0, image_size := 2, expected_crc := 0 }
      = ({ MockFlash.new 8 4 4 with
          storage := writeBytes (MockFlash.new 8 4 4).storage 0
            (List.replicate (((2 + 4 - 1) / 4) * 4) 255) },
        .ok { meta := { target_addr := 0, image_size := 2, expected_crc := 0 }, written := 0 }) :=
  (claim_C7_beginUpdate (MockFlash.new 8 4 4)
    { target_addr := 0, image_size := 2, expected_crc := 0 }).2
    (by decide) (by decide) (by decide) (by decide)

/-- C5 counterexample: the claim quantifies over every mock device and
every in-capacity `(addr, data)`, but on a device whose capacity (6) is
not a multiple of its sector size (4), `write_region(4, [0])` fails with
`OutOfBounds`: erasing the covering sector `[4, 8)` runs past the end of
storage, even though `addr + data.length = 5 ≤ 6`. -/
theorem claim_C5_counterexample :
    ((0 : Nat) < [0].length ∧ 4 + [0].length ≤ (MockFlash.new 6 4 2).storage.length) ∧
    ((MockFlash.new 6 4 2).writeRegion 4 [0]).2 = .error .outOfBounds := by
  constructor
  · decide
  · simp +decide [MockFlash.writeRegion, eraseSectors, MockFlash.eraseSector, MockFlash.new,
      usizeSub1, writeBytes]

/-- C5 amended: on a mock device with positive sector and page sizes, for
every non-empty byte slice whose covering sectors lie within capacity,
`write_region` succeeds and a subsequent `read` of the same range
returns exactly the written data (the prior erase leaves every affected
byte 0xFF, so no 0→1 transition is needed). -/
theorem claim_C5_roundtrip (f : MockFlash) (addr : Nat) (data : List Nat)
    (hs : 0 < f.sectorSize) (hp : 0 < f.pageSize) (hne : data ≠ [])
    (hbytes : ∀ b ∈ data, b < 256)
    (hcap : ((addr + data.length - 1) / f.sectorSize + 1) * f.sectorSize ≤ f.storage.length) :
    (f.writeRegion addr data).2 = .ok () ∧
    (f.writeRegion addr data).1.read addr data.length = .ok data := by
  have hL : 0 < data.length := List.length_pos.mpr hne
  have hlt : addr + data.length - 1
      < ((addr + data.length - 1) / f.sectorSize + 1) * f.sectorSize := by
    have h := Nat.lt_mul_div_succ (addr + data.length - 1) hs
    rw [Nat.mul_comm] at h
    exact h
  have hbound : addr + data.length ≤ f.storage.length := by omega
  rw [writeRegion_ok f addr data hs hp hne hbytes hcap]
  refine ⟨rfl, ?_⟩
  unfold MockFlash.read
  dsimp only
  rw [if_neg (by rw [length_writeBytes, length_writeBytes]; omega)]
  rw [sliceList_writeBytes data _ addr (by rw [length_writeBytes]; omega)]

/-- C5 witness: writing `[7, 9]` at the unaligned address 1 of a fresh
8-byte device (4-byte sectors, 2-byte pages) succeeds and reads back
exactly `[7, 9]`. -/
theorem claim_C5_witness :
    ((MockFlash.new 8 4 2).writeRegion 1 [7, 9]).2 = .ok () ∧
    ((MockFlash.new 8 4 2).writeRegion 1 [7, 9]).1.read 1 [7, 9].length = .ok [7, 9] :=
  claim_C5_roundtrip (MockFlash.new 8 4 2) 1 [7, 9]
    (by decide) (by decide) (by decide) (by decide) (by decide)

/-- C9 counterexample: `write_region` with an empty slice is not a
no-op: at the non-sector-aligned address 5 (sector size 4) it computes
the inclusive sector range `[5/4, (5-1)/4] = [1, 1]` and erases sector
`[4, 8)`, so on a device previously filled with zeros it returns `Ok`
but byte 4 has changed from 0 to 0xFF. -/
theorem claim_C9_counterexample :
    ((((MockFlash.new 8 4 4).fill 0).writeRegion 5 []).2 = .ok ()) ∧
    ((((MockFlash.new 8 4 4).fill 0).writeRegion 5 []).1.storage.getD 4 0 = 255) ∧
    (((MockFlash.new 8 4 4).fill 0).storage.getD 4 0 = 0) := by
  refine ⟨?_, ?_, ?_⟩ <;>
    simp +decide [MockFlash.writeRegion, eraseSectors, MockFlash.eraseSector, MockFlash.new,
      MockFlash.fill, usizeSub1, writeBytes, programLoop]

/-- C9 amended: `write_region` with an empty slice returns `Ok` and
leaves the device completely unchanged when the address is a positive
sector-aligned address within capacity (then the inclusive sector range
`[addr/s, (addr-1)/s]` is empty); a non-aligned address instead erases
the sector containing `addr - 1`, as the counterexample shows. -/
theorem claim_C9_writeRegion_empty (f : MockFlash) (addr : Nat)
    (hs : 0 < f.sectorSize) (hp : 0 < f.pageSize)
    (hal : addr % f.sectorSize = 0) (hpos : 0 < addr) (hcap : addr ≤ f.storage.length) :
    f.writeRegion addr [] = (f, .ok ()) := by
  have hdvd : f.sectorSize ∣ addr := Nat.dvd_of_mod_eq_zero hal
  have hmul : addr / f.sectorSize * f.sectorSize = addr := Nat.div_mul_cancel hdvd
  have hend : usizeSub1 (addr + List.length ([] : List Nat)) / f.sectorSize
      < addr / f.sectorSize := by
    have hu : usizeSub1 (addr + List.length ([] : List Nat)) = addr - 1 := by
      unfold usizeSub1
      rw [if_neg (by simp only [List.length_nil, Nat.add_zero]; omega)]
      simp
    rw [hu, Nat.div_lt_iff_lt_mul hs, hmul]
    omega
  unfold MockFlash.writeRegion
  rw [if_neg (by simp only [List.length_nil, Nat.add_zero]; omega), if_neg (by omega)]
  show (match eraseSectors f (addr / f.sectorSize)
      (usizeSub1 (addr + List.length ([] : List Nat)) / f.sectorSize) with
    | (f', Except.error e) => (f', Except.error e)
    | (f', Except.ok _) =>
      if f'.pageSize = 0 then (f', Except.error (FlashError.deviceError ("invalid page size")))
      else programLoop f' addr [] 0) = (f, .ok ())
  rw [eraseSectors]
  rw [if_neg (by omega)]
  show (if f.pageSize = 0 then _ else _) = _
  rw [if_neg (by omega)]
  rw [programLoop_stop f addr [] 0 (by omega) (by simp)]

/-- C9 witness: the empty write at the aligned address 4 of an 8-byte
zero-filled device is a pure no-op. -/
theorem claim_C9_witness :
    ((MockFlash.new 8 4 4).fill 0).writeRegion 4 [] = ((MockFlash.new 8 4 4).fill 0, .ok ()) :=
  claim_C9_writeRegion_empty ((MockFlash.new 8 4 4).fill 0) 4
    (by decide) (by decide) (by decide) (by decide) (by decide)

/-- C1: the session invariant fails on the code.  End-to-end evaluation
of a 4-byte image delivered as two contiguous 2-byte chunks over 4-byte
sectors (the `c1run` scenario): both chunks succeed, but the second
chunk's `write_region` re-erases sector 0 and wipes the first chunk's
bytes back to 0xFF, so the flash holds `[255, 255, 3, 4]` instead of the
image `[1, 2, 3, 4]`, and `finalize_update` with the image's correct
CRC-32 fails with `CrcMismatch`. -/
theorem claim_C1_chunk_overwrite :
    ((beginUpdate (MockFlash.new 8 4 2) c1meta).2 = .ok { meta := c1meta, written := 0 }) ∧
    (c1run.2.2 = [.ok (), .ok ()]) ∧
    (sliceList c1run.2.1.storage 0 4 = [255, 255, 3, 4]) ∧
    ([255, 255, 3, 4] ≠ [1, 2, 3, 4]) ∧
    ((finalizeUpdate c1run.1 c1run.2.1).2 = .error .crcMismatch) := by
  refine ⟨?_, ?_, ?_, by decide, ?_⟩ <;>
    simp +decide [c1meta, c1run, beginUpdate, eraseFrom, MockFlash.eraseSector, MockFlash.new,
      writeBytes, runChunks, writeChunk, MockFlash.writeRegion, eraseSectors, usizeSub1,
      programLoop, MockFlash.programPage, progBytes, MockFlash.verify, MockFlash.read, sliceList,
      compareAt, finalizeUpdate, verify_crc, MockFlash.crc32, crc32Bytes, crcByte, crcStep]
